import Mathlib

/-!
# enable_pmu: per-core PMU enablement, event-counter set-up and teardown

A shallow embedding of `src/enable_pmu.c`.

* A core is a record of the PMU control registers the module touches, plus the
  ordered list of the `msr` writes executed on it.
* `msr` / `mrs` are the two inline-assembly primitives.  Every register is a
  plain storage register (a read returns the last committed value), except
  `PMCNTENSET_EL0`, whose architectural behaviour is write-one-to-set.
* `isb()` and `printk(...)` do not change any register and are not represented;
  neither are the reads (`CNTFRQ_EL0`, `PMCCNTR_EL0`, the trailing
  `PMCNTENSET_EL0` read) whose value only feeds `printk`.
* `u32` values are naturals reduced modulo `2 ^ 32`.
-/

namespace EnablePmu

/-! ## Constants (lines 13-32 of the source) -/

def ARMV8_PMCR_MASK : Nat := 0x3f
/-- Enable all counters. -/
def ARMV8_PMCR_E : Nat := 1 <<< 0
/-- Reset all counters. -/
def ARMV8_PMCR_P : Nat := 1 <<< 1
/-- Cycle counter reset. -/
def ARMV8_PMCR_C : Nat := 1 <<< 2
/-- Cycle counter 64bit overflow. -/
def ARMV8_PMCR_LC : Nat := 1 <<< 6

/-- EL0 access enable. -/
def ARMV8_PMUSERENR_EN_EL0 : Nat := 1 <<< 0
/-- Cycle counter read enable. -/
def ARMV8_PMUSERENR_CR : Nat := 1 <<< 2
/-- Event counter read enable. -/
def ARMV8_PMUSERENR_ER : Nat := 1 <<< 3

/-- Select count register. -/
def ARMV8_PMSELR_SEL_1 : Nat := 1 <<< 0

/-- Select event type. -/
def INST_RETIRED : Nat := 0x8

def ARMV8_PMCCFILTR_NSH : Nat := 1 <<< 27

/-! ## Machine integers -/

/-- Conversion to the C type `u32`. -/
def u32 (x : Nat) : Nat := x % 2 ^ 32

/-- The C expression `~x` for an `int` constant `0 ≤ x < 2 ^ 31`, as the `u32`
operand it becomes in `u32 | int` (the value `-x - 1 + 2 ^ 32`). -/
def int_not_as_u32 (x : Nat) : Nat := 2 ^ 32 - 1 - x

/-! ## Registers and cores -/

/-- The system registers written by the module. -/
inductive Reg
  | PMCR_EL0
  | PMUSERENR_EL0
  | PMSELR_EL0
  | PMXEVTYPER_EL0
  | PMCNTENSET_EL0
  | PMCCFILTR_EL0
  deriving DecidableEq

/-- One executed `msr reg, val`. -/
structure Write where
  reg : Reg
  val : Nat
  deriving DecidableEq

/-- The PMU state of one core, and the `msr` writes executed on it so far,
oldest first. -/
structure Core where
  pmcr : Nat
  pmuserenr : Nat
  pmselr : Nat
  pmxevtyper : Nat
  pmcntenset : Nat
  pmccfiltr : Nat
  writes : List Write
  deriving DecidableEq

/-- Inline assembly `mrs %0, reg`. -/
def mrs (r : Reg) (c : Core) : Nat :=
  match r with
  | .PMCR_EL0 => c.pmcr
  | .PMUSERENR_EL0 => c.pmuserenr
  | .PMSELR_EL0 => c.pmselr
  | .PMXEVTYPER_EL0 => c.pmxevtyper
  | .PMCNTENSET_EL0 => c.pmcntenset
  | .PMCCFILTR_EL0 => c.pmccfiltr

/-- Inline assembly `msr reg, %0`.  `PMCNTENSET_EL0` is write-one-to-set: the
bits written as 1 become set, the others keep their value. -/
def msr (r : Reg) (v : Nat) (c : Core) : Core :=
  let c := { c with writes := c.writes ++ [Write.mk r v] }
  match r with
  | .PMCR_EL0 => { c with pmcr := v }
  | .PMUSERENR_EL0 => { c with pmuserenr := v }
  | .PMSELR_EL0 => { c with pmselr := v }
  | .PMXEVTYPER_EL0 => { c with pmxevtyper := v }
  | .PMCNTENSET_EL0 => { c with pmcntenset := c.pmcntenset ||| v }
  | .PMCCFILTR_EL0 => { c with pmccfiltr := v }

/-! ## The program -/

/-- Source lines 34-40. -/
def armv8pmu_pmcr_read (c : Core) : Nat :=
  let val := mrs .PMCR_EL0 c
  u32 val

/-- Source lines 41-46. -/
def armv8pmu_pmcr_write (val : Nat) (c : Core) : Core :=
  let val := u32 val
  let val := val &&& ARMV8_PMCR_MASK
  msr .PMCR_EL0 val c

/-- Source lines 56-77. -/
def enable_instruction_counters (c : Core) : Core :=
  -- enable user-mode access to the performance counter
  let c := msr .PMUSERENR_EL0 0xf c
  -- configure an event to count (select register 1)
  let c := msr .PMSELR_EL0 ARMV8_PMSELR_SEL_1 c
  -- event to count: instructions architecturally executed
  let c := msr .PMXEVTYPER_EL0 INST_RETIRED c
  -- enable the counter
  let c := msr .PMCNTENSET_EL0 (u32 (1 <<< 1)) c
  -- resetting the event counter
  let c := armv8pmu_pmcr_write (armv8pmu_pmcr_read c ||| ARMV8_PMCR_P) c
  c

/-- Source lines 79-98. -/
def enable_cpu_counters (c : Core) : Core :=
  let c := msr .PMUSERENR_EL0 0xf c
  let c := armv8pmu_pmcr_write (ARMV8_PMCR_LC ||| ARMV8_PMCR_E) c
  let c := msr .PMCNTENSET_EL0 (u32 (1 <<< 31)) c
  let c := armv8pmu_pmcr_write (armv8pmu_pmcr_read c ||| ARMV8_PMCR_E ||| ARMV8_PMCR_LC) c
  -- enable pmccntr at EL2
  let pmccfiltr := u32 (mrs .PMCCFILTR_EL0 c)
  let pmccfiltr := pmccfiltr ||| ARMV8_PMCCFILTR_NSH
  let c := msr .PMCCFILTR_EL0 pmccfiltr c
  c

/-- Source lines 100-109. -/
def disable_cpu_counters (c : Core) : Core :=
  -- program PMU and disable all counters
  let c := armv8pmu_pmcr_write (armv8pmu_pmcr_read c ||| int_not_as_u32 ARMV8_PMCR_E) c
  let c := msr .PMUSERENR_EL0 0 c
  c

/-- Kernel primitive `on_each_cpu(func, NULL, 1)`: run `func` on every core of
the system and wait for completion. -/
def on_each_cpu (func : Core → Core) (cpus : List Core) : List Core :=
  cpus.map func

/-- Source lines 111-134 (the register reads before the broadcasts only feed
`printk`). -/
def init (cpus : List Core) : List Core :=
  let cpus := on_each_cpu enable_cpu_counters cpus
  let cpus := on_each_cpu enable_instruction_counters cpus
  cpus

/-- Source lines 136-140. -/
def fini (cpus : List Core) : List Core :=
  on_each_cpu disable_cpu_counters cpus

/-! ## Concrete cores used as test inputs -/

/-- A core whose PMU registers are all zero and on which nothing was written. -/
def core0 : Core := ⟨0, 0, 0, 0, 0, 0, []⟩

/-- A core whose PMCR has only the P bit set. -/
def coreP : Core := ⟨2, 0, 0, 0, 0, 0, []⟩

/-- A core whose PMCR has only the E bit set. -/
def coreE : Core := ⟨1, 0, 0, 0, 0, 0, []⟩

/-- The enable transition on one core, in the order `init` broadcasts it. -/
def enable_transition (c : Core) : Core :=
  enable_instruction_counters (enable_cpu_counters c)

/-- The `msr` writes that running `f` on core `c` adds to the record of `c`. -/
def performed (f : Core → Core) (c : Core) : List Write :=
  (f c).writes.drop c.writes.length

/-- The values written to register `r`, oldest first. -/
def writes_to (r : Reg) (ws : List Write) : List Nat :=
  (ws.filter (fun w => decide (w.reg = r))).map Write.val

/-- Ordering property of a write sequence: scanning from the oldest write, a
`PMCNTENSET_EL0` write with bit 31 set is met before any `PMCR_EL0` write whose
value has the E bit (bit 0) set. -/
def cycle_enable_precedes_E : List Write → Bool
  | [] => true
  | w :: ws =>
    if w.reg = Reg.PMCNTENSET_EL0 ∧ w.val.testBit 31 = true then true
    else if w.reg = Reg.PMCR_EL0 ∧ w.val.testBit 0 = true then false
    else cycle_enable_precedes_E ws

/-! ## Symbolic execution of the three routines -/

theorem enable_cpu_counters_eq (c : Core) :
    enable_cpu_counters c =
      { pmcr := 1
        pmuserenr := 0xf
        pmselr := c.pmselr
        pmxevtyper := c.pmxevtyper
        pmcntenset := c.pmcntenset ||| 2 ^ 31
        pmccfiltr := c.pmccfiltr % 2 ^ 32 ||| 2 ^ 27
        writes := c.writes ++ [Write.mk .PMUSERENR_EL0 0xf] ++ [Write.mk .PMCR_EL0 1]
          ++ [Write.mk .PMCNTENSET_EL0 (2 ^ 31)] ++ [Write.mk .PMCR_EL0 1]
          ++ [Write.mk .PMCCFILTR_EL0 (c.pmccfiltr % 2 ^ 32 ||| 2 ^ 27)] } := by
  have h1 : (65 &&& 63 : Nat) = 1 := by decide
  simp [enable_cpu_counters, armv8pmu_pmcr_write, armv8pmu_pmcr_read, msr, mrs, u32,
    ARMV8_PMCR_MASK, ARMV8_PMCR_E, ARMV8_PMCR_LC, ARMV8_PMCCFILTR_NSH, h1]

theorem enable_instruction_counters_eq (c : Core) :
    enable_instruction_counters c =
      { pmcr := (c.pmcr % 2 ^ 32 ||| 2) % 2 ^ 32 &&& 0x3f
        pmuserenr := 0xf
        pmselr := 1
        pmxevtyper := 8
        pmcntenset := c.pmcntenset ||| 2
        pmccfiltr := c.pmccfiltr
        writes := c.writes ++ [Write.mk .PMUSERENR_EL0 0xf] ++ [Write.mk .PMSELR_EL0 1]
          ++ [Write.mk .PMXEVTYPER_EL0 8] ++ [Write.mk .PMCNTENSET_EL0 2]
          ++ [Write.mk .PMCR_EL0 ((c.pmcr % 2 ^ 32 ||| 2) % 2 ^ 32 &&& 0x3f)] } := by
  simp [enable_instruction_counters, armv8pmu_pmcr_write, armv8pmu_pmcr_read, msr, mrs, u32,
    ARMV8_PMCR_MASK, ARMV8_PMCR_P, ARMV8_PMSELR_SEL_1, INST_RETIRED]

theorem disable_cpu_counters_eq (c : Core) :
    disable_cpu_counters c =
      { pmcr := (c.pmcr % 2 ^ 32 ||| 0xfffffffe) % 2 ^ 32 &&& 0x3f
        pmuserenr := 0
        pmselr := c.pmselr
        pmxevtyper := c.pmxevtyper
        pmcntenset := c.pmcntenset
        pmccfiltr := c.pmccfiltr
        writes := c.writes
          ++ [Write.mk .PMCR_EL0 ((c.pmcr % 2 ^ 32 ||| 0xfffffffe) % 2 ^ 32 &&& 0x3f)]
          ++ [Write.mk .PMUSERENR_EL0 0] } := by
  simp [disable_cpu_counters, armv8pmu_pmcr_write, armv8pmu_pmcr_read, msr, mrs, u32,
    ARMV8_PMCR_MASK, ARMV8_PMCR_E, int_not_as_u32]

theorem init_eq_map (cpus : List Core) : init cpus = cpus.map enable_transition := by
  simp [init, on_each_cpu, enable_transition, List.map_map, Function.comp_def]

theorem fini_eq_map (cpus : List Core) : fini cpus = cpus.map disable_cpu_counters := rfl

theorem performed_of_append (f : Core → Core) (c : Core) (ws : List Write)
    (h : (f c).writes = c.writes ++ ws) : performed f c = ws := by
  simp [performed, h]

/-! ## Bit-level facts -/

theorem or_mod_two_pow_eq (a b n : Nat) : (a ||| b) % 2 ^ n = a % 2 ^ n ||| b % 2 ^ n := by
  apply Nat.eq_of_testBit_eq
  intro i
  simp only [Nat.testBit_mod_two_pow, Nat.testBit_or]
  cases decide (i < n) <;> simp

theorem and_mask_eq_mod (x : Nat) : x % 2 ^ 32 &&& 0x3f = x % 64 := by
  have h : x % 2 ^ 32 &&& 2 ^ 6 - 1 = x % 2 ^ 32 % 2 ^ 6 :=
    Nat.and_pow_two_sub_one_eq_mod (x % 2 ^ 32) 6
  have h2 : x % 2 ^ 32 % 2 ^ 6 = x % 64 := by omega
  rw [h2] at h
  exact h

theorem teardown_value (cur : Nat) :
    (cur % 2 ^ 32 ||| 0xfffffffe) % 2 ^ 32 &&& 0x3f = 0x3e ||| (cur % 2 ^ 32 &&& 1) := by
  rw [and_mask_eq_mod]
  have h64 : (cur % 2 ^ 32 ||| 0xfffffffe) % 64 = cur % 64 ||| 62 := by
    have h : (cur % 2 ^ 32 ||| 0xfffffffe) % 2 ^ 6 = cur % 2 ^ 32 % 2 ^ 6 ||| 0xfffffffe % 2 ^ 6 :=
      or_mod_two_pow_eq (cur % 2 ^ 32) 0xfffffffe 6
    have h2 : cur % 2 ^ 32 % 2 ^ 6 = cur % 64 := by omega
    rw [h2] at h
    exact h
  have h1 : cur % 2 ^ 32 &&& 1 = cur % 64 % 2 := by
    have h : cur % 2 ^ 32 &&& 2 ^ 1 - 1 = cur % 2 ^ 32 % 2 ^ 1 :=
      Nat.and_pow_two_sub_one_eq_mod (cur % 2 ^ 32) 1
    have h2 : cur % 2 ^ 32 % 2 ^ 1 = cur % 64 % 2 := by omega
    rw [h2] at h
    exact h
  rw [h64, h1]
  have hlt : cur % 64 < 64 := Nat.mod_lt _ (by decide)
  generalize cur % 64 = r at hlt
  revert r
  decide

theorem teardown_value_lt (cur : Nat) :
    (cur % 2 ^ 32 ||| 0xfffffffe) % 2 ^ 32 &&& 0x3f < 64 := by
  rw [and_mask_eq_mod]
  exact Nat.mod_lt _ (by decide)

theorem testBit_high_of_lt_64 (x i : Nat) (h : x < 64) : x.testBit (i + 6) = false := by
  apply Nat.testBit_lt_two_pow
  have h6 : 2 ^ 6 ≤ 2 ^ (i + 6) := Nat.pow_le_pow_right (by decide) (Nat.le_add_left 6 i)
  have h64 : (2 : Nat) ^ 6 = 64 := by decide
  omega

theorem or_or_or_idem (a b d : Nat) : a ||| b ||| d ||| b ||| d = a ||| b ||| d := by
  apply Nat.eq_of_testBit_eq
  intro i
  simp only [Nat.testBit_or]
  cases a.testBit i <;> cases b.testBit i <;> cases d.testBit i <;> rfl

/-! ## The claims -/

/-- C1: on every core of the system, whatever its initial register state, after
`init` has broadcast `enable_cpu_counters` and then `enable_instruction_counters`,
PMUSERENR has EN_EL0 (bit 0), CR (bit 2) and ER (bit 3) all set. -/
theorem enable_transition_grants_EN_CR_ER (cpus : List Core) (c : Core) (h : c ∈ init cpus) :
    c.pmuserenr.testBit 0 = true ∧ c.pmuserenr.testBit 2 = true ∧
    c.pmuserenr.testBit 3 = true ∧
    c.pmuserenr &&& (ARMV8_PMUSERENR_EN_EL0 ||| ARMV8_PMUSERENR_CR ||| ARMV8_PMUSERENR_ER)
      = ARMV8_PMUSERENR_EN_EL0 ||| ARMV8_PMUSERENR_CR ||| ARMV8_PMUSERENR_ER := by
  rw [init_eq_map] at h
  obtain ⟨c0, _, rfl⟩ := List.mem_map.1 h
  simp only [enable_transition, enable_instruction_counters_eq]
  decide

/-- Instance of C1 on a two-core system. -/
theorem enable_transition_grants_EN_CR_ER_witness :
    enable_transition coreP ∈ init [core0, coreP] ∧
    (enable_transition coreP).pmuserenr.testBit 0 = true ∧
    (enable_transition coreP).pmuserenr.testBit 2 = true ∧
    (enable_transition coreP).pmuserenr.testBit 3 = true ∧
    (enable_transition coreP).pmuserenr
        &&& (ARMV8_PMUSERENR_EN_EL0 ||| ARMV8_PMUSERENR_CR ||| ARMV8_PMUSERENR_ER)
      = ARMV8_PMUSERENR_EN_EL0 ||| ARMV8_PMUSERENR_CR ||| ARMV8_PMUSERENR_ER :=
  ⟨by decide,
   enable_transition_grants_EN_CR_ER [core0, coreP] (enable_transition coreP) (by decide)⟩

/-- C2: round trip. On every core, whatever its initial register state, `init`
(enable_cpu_counters then enable_instruction_counters) followed by `fini`
(disable_cpu_counters) leaves PMUSERENR equal to 0. -/
theorem roundtrip_revokes_pmuserenr (cpus : List Core) (c : Core)
    (h : c ∈ fini (init cpus)) : c.pmuserenr = 0 := by
  rw [fini_eq_map] at h
  obtain ⟨c0, _, rfl⟩ := List.mem_map.1 h
  simp only [disable_cpu_counters_eq]

/-- Instance of C2 on a two-core system. -/
theorem roundtrip_revokes_pmuserenr_witness :
    disable_cpu_counters (enable_transition coreP) ∈ fini (init [core0, coreP]) ∧
    (disable_cpu_counters (enable_transition coreP)).pmuserenr = 0 :=
  ⟨by decide,
   roundtrip_revokes_pmuserenr [core0, coreP] (disable_cpu_counters (enable_transition coreP))
     (by decide)⟩

/-- C3: idempotence. For every initial register state of a core, running the
enable transition twice in succession leaves PMUSERENR and PMCNTENSET exactly as
running it once does (PMCNTENSET being write-one-to-set). -/
theorem enable_transition_idempotent (c : Core) :
    (enable_transition (enable_transition c)).pmuserenr = (enable_transition c).pmuserenr ∧
    (enable_transition (enable_transition c)).pmcntenset = (enable_transition c).pmcntenset := by
  simp only [enable_transition, enable_instruction_counters_eq, enable_cpu_counters_eq]
  exact ⟨trivial, or_or_or_idem c.pmcntenset (2 ^ 31) 2⟩

/-- C4 (evaluation of the code where the claim fails): on a core whose PMCR is
0x1 (E set), `disable_cpu_counters` commits 0x3F and the E bit (bit 0) is still
set instead of cleared; the same happens on a core that went through the enable
transition from all-zero registers (PMCR 0x3 before, 0x3F after). -/
theorem teardown_leaves_E_set :
    armv8pmu_pmcr_read coreE = 0x1 ∧
    (disable_cpu_counters coreE).pmcr = 0x3f ∧
    (disable_cpu_counters coreE).pmcr.testBit 0 = true ∧
    armv8pmu_pmcr_read (enable_transition core0) = 0x3 ∧
    (disable_cpu_counters (enable_transition core0)).pmcr = 0x3f ∧
    (disable_cpu_counters (enable_transition core0)).pmcr.testBit 0 = true := by
  decide

/-- C5 (evaluation of the code where the claim fails): for every prior register
state, both PMCR writes of `enable_cpu_counters` commit 0x1, and PMCR afterwards
holds exactly E: bit 0 is set but the LC bit (bit 6) is clear. The cause is
`armv8pmu_pmcr_write`, whose mask 0x3f clears bit 6 of every value it commits. -/
theorem enable_cpu_counters_commits_E_without_LC (c : Core) (v : Nat) :
    writes_to .PMCR_EL0 (performed enable_cpu_counters c) = [1, 1] ∧
    (enable_cpu_counters c).pmcr = ARMV8_PMCR_E ∧
    (enable_cpu_counters c).pmcr.testBit 0 = true ∧
    (enable_cpu_counters c).pmcr.testBit 6 = false ∧
    (armv8pmu_pmcr_write v c).pmcr.testBit 6 = false := by
  refine ⟨?_, ?_, ?_, ?_, ?_⟩
  · rw [performed_of_append enable_cpu_counters c
      [Write.mk .PMUSERENR_EL0 0xf, Write.mk .PMCR_EL0 1, Write.mk .PMCNTENSET_EL0 (2 ^ 31),
       Write.mk .PMCR_EL0 1, Write.mk .PMCCFILTR_EL0 (c.pmccfiltr % 2 ^ 32 ||| 2 ^ 27)]
      (by simp [enable_cpu_counters_eq])]
    simp [writes_to]
  · simp only [enable_cpu_counters_eq]; decide
  · simp only [enable_cpu_counters_eq]; decide
  · simp only [enable_cpu_counters_eq]; decide
  · have hv : (armv8pmu_pmcr_write v c).pmcr = v % 2 ^ 32 &&& 0x3f := rfl
    rw [hv, and_mask_eq_mod]
    exact testBit_high_of_lt_64 (v % 64) 0 (Nat.mod_lt _ (by decide))

/-- C6 (counterexample): a core whose PMCR has the P bit (bit 1, one of the six
defined low bits) set before `enable_cpu_counters` has it clear afterwards. -/
theorem enable_cpu_counters_clears_P :
    1 < 6 ∧ (armv8pmu_pmcr_read coreP).testBit 1 = true ∧
    (enable_cpu_counters coreP).pmcr.testBit 1 = false := by
  decide

/-- C6 (amended): the last PMCR write of `enable_cpu_counters` is a
read-modify-write that keeps the six defined low bits of the value it reads and
sets E; but the value it reads is the one committed by the earlier
plain write of `LC | E`, so PMCR holds exactly 0x1 (E) after the routine,
whatever the prior PMCR value was. -/
theorem enable_cpu_counters_overwrites_pmcr (c : Core) :
    (armv8pmu_pmcr_write (armv8pmu_pmcr_read c ||| ARMV8_PMCR_E ||| ARMV8_PMCR_LC) c).pmcr
      = (armv8pmu_pmcr_read c &&& ARMV8_PMCR_MASK) ||| ARMV8_PMCR_E ∧
    (armv8pmu_pmcr_write (ARMV8_PMCR_LC ||| ARMV8_PMCR_E) c).pmcr = ARMV8_PMCR_E ∧
    (enable_cpu_counters c).pmcr = ARMV8_PMCR_E := by
  refine ⟨?_, ?_, ?_⟩
  · have hv : (armv8pmu_pmcr_write (armv8pmu_pmcr_read c ||| ARMV8_PMCR_E ||| ARMV8_PMCR_LC) c).pmcr
        = (c.pmcr % 2 ^ 32 ||| 1 ||| 64) % 2 ^ 32 &&& 0x3f := rfl
    have hr : armv8pmu_pmcr_read c &&& ARMV8_PMCR_MASK = c.pmcr % 2 ^ 32 &&& 0x3f := rfl
    have he : ARMV8_PMCR_E = 1 := rfl
    rw [hv, hr, he, and_mask_eq_mod, and_mask_eq_mod]
    have h : (c.pmcr % 2 ^ 32 ||| 1 ||| 64) % 2 ^ 6
        = c.pmcr % 2 ^ 32 % 2 ^ 6 ||| 1 % 2 ^ 6 ||| 64 % 2 ^ 6 := by
      rw [or_mod_two_pow_eq, or_mod_two_pow_eq]
    have h2 : c.pmcr % 2 ^ 32 % 2 ^ 6 = c.pmcr % 64 := by omega
    rw [h2] at h
    have hm : (c.pmcr % 2 ^ 32 ||| 1 ||| 64) % 64 = c.pmcr % 64 ||| 1 ||| 0 := h
    rw [hm]
    have hlt : c.pmcr % 64 < 64 := Nat.mod_lt _ (by decide)
    generalize c.pmcr % 64 = r at hlt
    revert r
    decide
  · show u32 (ARMV8_PMCR_LC ||| ARMV8_PMCR_E) &&& ARMV8_PMCR_MASK = ARMV8_PMCR_E
    decide
  · simp only [enable_cpu_counters_eq]; decide

/-- C7 (counterexample): in the writes `enable_cpu_counters` performs on the
all-zero core, a PMCR write with E set is met before the PMCNTENSET write of
bit 31. -/
theorem enable_cpu_counters_E_before_cycle_enable :
    cycle_enable_precedes_E (performed enable_cpu_counters core0) = false := by
  decide

/-- C7 (amended): for every initial register state, `enable_cpu_counters` writes,
in this order, PMUSERENR := 0xF, PMCR := 0x1, PMCNTENSET := bit 31, PMCR := 0x1,
PMCCFILTR := old | NSH. The PMCNTENSET write precedes the last PMCR write (the
read-modify-write one) and follows the first PMCR write; both commit E. -/
theorem enable_cpu_counters_write_order (c : Core) :
    performed enable_cpu_counters c =
      [Write.mk .PMUSERENR_EL0 0xf,
       Write.mk .PMCR_EL0 ARMV8_PMCR_E,
       Write.mk .PMCNTENSET_EL0 (1 <<< 31),
       Write.mk .PMCR_EL0 ARMV8_PMCR_E,
       Write.mk .PMCCFILTR_EL0 (u32 c.pmccfiltr ||| ARMV8_PMCCFILTR_NSH)] ∧
    cycle_enable_precedes_E ((performed enable_cpu_counters c).drop 2) = true := by
  have h : performed enable_cpu_counters c =
      [Write.mk .PMUSERENR_EL0 0xf, Write.mk .PMCR_EL0 1, Write.mk .PMCNTENSET_EL0 (2 ^ 31),
       Write.mk .PMCR_EL0 1, Write.mk .PMCCFILTR_EL0 (c.pmccfiltr % 2 ^ 32 ||| 2 ^ 27)] :=
    performed_of_append enable_cpu_counters c _ (by simp [enable_cpu_counters_eq])
  rw [h]
  refine ⟨?_, ?_⟩
  · simp [ARMV8_PMCR_E, ARMV8_PMCCFILTR_NSH, u32]
  · simp [cycle_enable_precedes_E]
    decide

/-- C8 (counterexample): on the all-zero core `enable_cpu_counters` writes
PMUSERENR once, with 0xF, which differs from EN_EL0 | CR | ER = 0xD: bit 1 is
granted as well. -/
theorem enable_cpu_counters_pmuserenr_not_0xD :
    writes_to .PMUSERENR_EL0 (performed enable_cpu_counters core0) = [0xf] ∧
    ARMV8_PMUSERENR_EN_EL0 ||| ARMV8_PMUSERENR_CR ||| ARMV8_PMUSERENR_ER = 0xd ∧
    (enable_cpu_counters core0).pmuserenr ≠
      ARMV8_PMUSERENR_EN_EL0 ||| ARMV8_PMUSERENR_CR ||| ARMV8_PMUSERENR_ER ∧
    (enable_cpu_counters core0).pmuserenr.testBit 1 = true := by
  decide

/-- C8 (amended): for every initial register state, `enable_cpu_counters` writes
PMUSERENR exactly once, with 0xF = EN_EL0 | bit 1 | CR | ER: bits 0 to 3 are
granted, EN_EL0, CR and ER among them, and no bit at position 4 or above. -/
theorem enable_cpu_counters_pmuserenr_0xF (c : Core) (i : Nat) :
    writes_to .PMUSERENR_EL0 (performed enable_cpu_counters c) = [0xf] ∧
    (enable_cpu_counters c).pmuserenr = 0xf ∧
    (0xf : Nat) =
      ARMV8_PMUSERENR_EN_EL0 ||| 1 <<< 1 ||| ARMV8_PMUSERENR_CR ||| ARMV8_PMUSERENR_ER ∧
    (enable_cpu_counters c).pmuserenr.testBit (i + 4) = false := by
  refine ⟨?_, ?_, by decide, ?_⟩
  · rw [performed_of_append enable_cpu_counters c
      [Write.mk .PMUSERENR_EL0 0xf, Write.mk .PMCR_EL0 1, Write.mk .PMCNTENSET_EL0 (2 ^ 31),
       Write.mk .PMCR_EL0 1, Write.mk .PMCCFILTR_EL0 (c.pmccfiltr % 2 ^ 32 ||| 2 ^ 27)]
      (by simp [enable_cpu_counters_eq])]
    simp [writes_to]
  · simp only [enable_cpu_counters_eq]
  · simp only [enable_cpu_counters_eq]
    apply Nat.testBit_lt_two_pow
    have h4 : 2 ^ 4 ≤ 2 ^ (i + 4) := Nat.pow_le_pow_right (by decide) (Nat.le_add_left 4 i)
    have h16 : (2 : Nat) ^ 4 = 16 := by decide
    omega

/-- C9: for every initial register state of a core, after
`enable_instruction_counters` PMSELR holds 1 (counter 1 selected), PMXEVTYPER
holds the INST_RETIRED code 0x8, the routine has written PMCNTENSET once, with
bit 1, and bit 1 of PMCNTENSET is set. -/
theorem enable_instruction_counters_programs_counter_1 (c : Core) :
    (enable_instruction_counters c).pmselr = 1 ∧
    (enable_instruction_counters c).pmxevtyper = INST_RETIRED ∧
    INST_RETIRED = 0x8 ∧
    writes_to .PMCNTENSET_EL0 (performed enable_instruction_counters c) = [1 <<< 1] ∧
    (enable_instruction_counters c).pmcntenset.testBit 1 = true := by
  refine ⟨?_, ?_, rfl, ?_, ?_⟩
  · simp only [enable_instruction_counters_eq]
  · simp only [enable_instruction_counters_eq]; rfl
  · rw [performed_of_append enable_instruction_counters c
      [Write.mk .PMUSERENR_EL0 0xf, Write.mk .PMSELR_EL0 1, Write.mk .PMXEVTYPER_EL0 8,
       Write.mk .PMCNTENSET_EL0 2,
       Write.mk .PMCR_EL0 ((c.pmcr % 2 ^ 32 ||| 2) % 2 ^ 32 &&& 0x3f)]
      (by simp [enable_instruction_counters_eq])]
    simp [writes_to]
  · simp only [enable_instruction_counters_eq, Nat.testBit_or]
    have h : (2 : Nat).testBit 1 = true := by decide
    rw [h, Bool.or_true]

/-- C10: for every PMCR value `current` that `disable_cpu_counters` reads (as a
u32), the value it commits to PMCR is `(current | ~E)` masked to the six defined
bits, that is `0x3E | (current & 1)`: bits 1 to 5 are set, no bit at position 6
or above is set, and the E bit is exactly what it was before. -/
theorem teardown_commits_0x3E_or_E (c : Core) (i : Nat) :
    (disable_cpu_counters c).pmcr
      = (armv8pmu_pmcr_read c ||| int_not_as_u32 ARMV8_PMCR_E) &&& ARMV8_PMCR_MASK ∧
    (disable_cpu_counters c).pmcr = 0x3e ||| (armv8pmu_pmcr_read c &&& 1) ∧
    writes_to .PMCR_EL0 (performed disable_cpu_counters c) = [(disable_cpu_counters c).pmcr] ∧
    (disable_cpu_counters c).pmcr.testBit 1 = true ∧
    (disable_cpu_counters c).pmcr.testBit 2 = true ∧
    (disable_cpu_counters c).pmcr.testBit 3 = true ∧
    (disable_cpu_counters c).pmcr.testBit 4 = true ∧
    (disable_cpu_counters c).pmcr.testBit 5 = true ∧
    (disable_cpu_counters c).pmcr.testBit (i + 6) = false ∧
    (disable_cpu_counters c).pmcr.testBit 0 = (armv8pmu_pmcr_read c).testBit 0 := by
  have hp : (disable_cpu_counters c).pmcr
      = (c.pmcr % 2 ^ 32 ||| 0xfffffffe) % 2 ^ 32 &&& 0x3f := by
    simp only [disable_cpu_counters_eq]
  have hr : armv8pmu_pmcr_read c = c.pmcr % 2 ^ 32 := rfl
  have hv : (disable_cpu_counters c).pmcr = 0x3e ||| (c.pmcr % 2 ^ 32 &&& 1) := by
    rw [hp, teardown_value]
  have h1 : (0x3e : Nat).testBit 1 = true := by decide
  have h2 : (0x3e : Nat).testBit 2 = true := by decide
  have h3 : (0x3e : Nat).testBit 3 = true := by decide
  have h4 : (0x3e : Nat).testBit 4 = true := by decide
  have h5 : (0x3e : Nat).testBit 5 = true := by decide
  have h0 : (0x3e : Nat).testBit 0 = false := by decide
  have h10 : (1 : Nat).testBit 0 = true := by decide
  refine ⟨?_, ?_, ?_, ?_, ?_, ?_, ?_, ?_, ?_, ?_⟩
  · rw [hp, hr]
    have hlt : c.pmcr % 2 ^ 32 ||| 0xfffffffe < 2 ^ 32 :=
      Nat.or_lt_two_pow (Nat.mod_lt _ (by decide)) (by decide)
    rw [Nat.mod_eq_of_lt hlt]
    rfl
  · rw [hv, hr]
  · rw [performed_of_append disable_cpu_counters c
      [Write.mk .PMCR_EL0 ((c.pmcr % 2 ^ 32 ||| 0xfffffffe) % 2 ^ 32 &&& 0x3f),
       Write.mk .PMUSERENR_EL0 0]
      (by simp [disable_cpu_counters_eq])]
    simp [writes_to, hp]
  · rw [hv, Nat.testBit_or, h1, Bool.true_or]
  · rw [hv, Nat.testBit_or, h2, Bool.true_or]
  · rw [hv, Nat.testBit_or, h3, Bool.true_or]
  · rw [hv, Nat.testBit_or, h4, Bool.true_or]
  · rw [hv, Nat.testBit_or, h5, Bool.true_or]
  · rw [hp]
    exact testBit_high_of_lt_64 _ i (teardown_value_lt c.pmcr)
  · rw [hv, hr, Nat.testBit_or, Nat.testBit_and, h0, h10, Bool.false_or, Bool.and_true]

end EnablePmu
